import Mathlib

/-!
A shallow embedding of the transactional indexing core of TRcu.hh:
the epoch-ordered reclamation queue (TRcuGroup / TRcuSet) and the
transactional unordered index (tpcc::unordered_index), together with a
one-leaf model of the ordered index range scan.  The model is sequential
(a single in-flight transaction); container code is translated from the
source, while the STM library primitives it calls (Transaction.hh,
TWrapped.hh and the masstree headers, which are not among the sources)
are modelled from the specification where noted.
-/

namespace Sto

/-- Version word.  Modelled from the spec (section 4.1 Version Word): the
classes TVersion / TNonopaqueVersion / TLockVersion live in Transaction.hh,
which is not among the sources.  Only the bits the indexed containers use
appear: the lock bit, the nonopaque bit, the user bit (the containers'
invalid_bit) and the monotonic counter. -/
structure Version where
  counter : Nat
  locked : Bool
  nonopaque : Bool
  invalid : Bool
deriving DecidableEq

/-- Acquire the lock bit (sequential model of the spinlock). -/
def Version.lock (v : Version) : Version := { v with locked := true }

/-- Clear the lock bit; also models TVersion::unlocked(), which returns the
word with the lock bit cleared. -/
def Version.unlocked (v : Version) : Version := { v with locked := false }

/-- inc_nonopaque_version: bump the counter and set the nonopaque bit while
the word is locked (used for structural bucket changes). -/
def Version.incNonopaque (v : Version) : Version :=
  { v with counter := v.counter + 1, nonopaque := true }

/-- A typed machine pointer: an internal_elem address or a value_type
address.  C++ casts preserve the address, so a cast is the identity here;
what changes is the type at which the address is later dereferenced. -/
inductive CPtr where
  | elem (i : Nat)
  | val (i : Nat)
deriving DecidableEq

/-- The payload word of a write-set entry.  Modelled from the spec
(section 3 Transaction item T): TransProxy::add_write\<T*\>(p) stores the
raw pointer word, TransProxy::add_write() sets the write bit with no
payload, and write_value\<T\>() returns the stored word reinterpreted
at type T. -/
inductive WriteVal where
  | blank
  | ptr (p : Option CPtr)
deriving DecidableEq

/-- The raw word stored in a write item, as write_value\<T*\>() returns it
(a blank write has no defined payload word, modelled as a null word). -/
def WriteVal.ptrWord : WriteVal → Option CPtr
  | .blank => none
  | .ptr p => p

/-- Transaction item.  Modelled from the spec (section 3 Transaction item
T): observed version (read-set membership), pending write (write-set
membership), and the two container flags insert_bit and delete_bit. -/
structure TransItem where
  readv : Option Version
  writev : Option WriteVal
  insertFlag : Bool
  deleteFlag : Bool
deriving DecidableEq

/-- A freshly created item: no read, no write, no flags. -/
def freshItem : TransItem := ⟨none, none, false, false⟩

/-- Keys of transaction items: an internal_elem pointer, or an address with
the low tag bit set (a bucket key in the unordered index, an internode key
in the ordered index). -/
inductive ItemKey where
  | elem (i : Nat)
  | tag (i : Nat)
deriving DecidableEq

/-- Transaction descriptor, reduced to its item table.  Modelled from the
spec (section 3 Transaction descriptor D). -/
structure Txn where
  items : List (ItemKey × TransItem)
deriving DecidableEq

/-- Item lookup (Sto::item without the creation side effect). -/
def Txn.lookupItem (t : Txn) (ik : ItemKey) : Option TransItem :=
  (t.items.find? (fun p => decide (p.1 = ik))).map (·.2)

/-- The item under a key, viewing an absent item as a fresh one (Sto::item
returns a fresh item for a key it has not seen). -/
def Txn.item (t : Txn) (ik : ItemKey) : TransItem :=
  (t.lookupItem ik).getD freshItem

/-- Replace the binding of a key, or append it if absent. -/
def setAssoc : List (ItemKey × TransItem) → ItemKey → TransItem → List (ItemKey × TransItem)
  | [], ik, it => [(ik, it)]
  | (k, v) :: rest, ik, it =>
    if k = ik then (ik, it) :: rest else (k, v) :: setAssoc rest ik it

def Txn.set (t : Txn) (ik : ItemKey) (it : TransItem) : Txn :=
  ⟨setAssoc t.items ik it⟩

/-- The creation side effect of Sto::item: make sure the key has a binding. -/
def Txn.ensure (t : Txn) (ik : ItemKey) : Txn :=
  match t.lookupItem ik with
  | some _ => t
  | none => t.set ik freshItem

/-- TransProxy::observe.  Modelled from the spec (sections 4.1 and 7):
under opacity a locked word may not be observed, which aborts; otherwise
the snapshot is recorded in the read set if the item has no read yet. -/
def observe (opacity : Bool) (it : TransItem) (v : Version) : Bool × TransItem :=
  if opacity && v.locked then (false, it)
  else (true, if it.readv.isNone then { it with readv := some v } else it)

/-- select_for_update for the OCC version types (TVersion and
TNonopaqueVersion in the source): observe the version, then set the write
bit with no payload (add_write()). -/
def selectForUpdate (opacity : Bool) (it : TransItem) (v : Version) : Bool × TransItem :=
  match observe opacity it v with
  | (false, it') => (false, it')
  | (true, it') => (true, { it' with writev := some (it'.writev.getD .blank) })

/-! ### Transaction item lemmas -/

theorem find_setAssoc_self (l : List (ItemKey × TransItem)) (ik : ItemKey) (it : TransItem) :
    (setAssoc l ik it).find? (fun p => decide (p.1 = ik)) = some (ik, it) := by
  induction l with
  | nil => simp [setAssoc]
  | cons hd tl ih =>
    by_cases h : hd.1 = ik
    · simp [setAssoc, h]
    · simp [setAssoc, h, List.find?, ih]

theorem find_setAssoc_ne (l : List (ItemKey × TransItem)) (ik ik' : ItemKey) (it : TransItem)
    (h : ik' ≠ ik) :
    (setAssoc l ik it).find? (fun p => decide (p.1 = ik')) = l.find? (fun p => decide (p.1 = ik')) := by
  induction l with
  | nil => simp [setAssoc, Ne.symm h]
  | cons hd tl ih =>
    by_cases hhd : hd.1 = ik
    · subst hhd
      simp [setAssoc, List.find?, Ne.symm h, fun hh : hd.1 = ik' => h (hh ▸ rfl)]
    · by_cases hhd' : hd.1 = ik'
      · obtain ⟨a, b⟩ := hd
        simp only at hhd'
        subst hhd'
        simp [setAssoc, hhd, List.find?, h]
      · simp [setAssoc, hhd, List.find?, hhd', ih]

theorem lookupItem_set_self (t : Txn) (ik : ItemKey) (it : TransItem) :
    (t.set ik it).lookupItem ik = some it := by
  simp [Txn.set, Txn.lookupItem, find_setAssoc_self]

theorem lookupItem_set_ne (t : Txn) (ik ik' : ItemKey) (it : TransItem) (h : ik' ≠ ik) :
    (t.set ik it).lookupItem ik' = t.lookupItem ik' := by
  simp [Txn.set, Txn.lookupItem, find_setAssoc_ne t.items ik ik' it h]

@[simp] theorem item_set_self (t : Txn) (ik : ItemKey) (it : TransItem) :
    (t.set ik it).item ik = it := by
  simp [Txn.item, lookupItem_set_self]

theorem item_set_ne (t : Txn) (ik ik' : ItemKey) (it : TransItem) (h : ik' ≠ ik) :
    (t.set ik it).item ik' = t.item ik' := by
  simp [Txn.item, lookupItem_set_ne t ik ik' it h]

@[simp] theorem lookupItem_ensure (t : Txn) (ik ik' : ItemKey) :
    (t.ensure ik).item ik' = t.item ik' := by
  unfold Txn.ensure
  cases hl : t.lookupItem ik with
  | some it => rfl
  | none =>
    by_cases h : ik' = ik
    · subst h; simp [Txn.item, lookupItem_set_self, hl]
    · simp [Txn.item, lookupItem_set_ne t ik ik' freshItem h]

/-- Setting a key right after ensuring it is the same as setting it. -/
theorem ensure_set (t : Txn) (ik : ItemKey) (it : TransItem) :
    (t.ensure ik).set ik it = t.set ik it := by
  unfold Txn.ensure
  cases hl : t.lookupItem ik with
  | some it0 => rfl
  | none =>
    show (t.set ik freshItem).set ik it = t.set ik it
    unfold Txn.set
    congr 1
    induction t.items with
    | nil => simp [setAssoc]
    | cons hd tl ih =>
      by_cases h : hd.1 = ik
      · simp [setAssoc, h]
      · simp [setAssoc, h, ih]

/-! ### The epoch-ordered reclamation queue (TRcuGroup, TRcuSet) -/

/-- One ring-buffer element of a TRcuGroup: either an epoch marker
(function pointer nullptr, u.epoch) or an action entry (a non-null
function pointer, modelled as a numeric id, with u.argument, a possibly
null pointer). -/
inductive RcuEntry where
  | marker (epoch : Nat)
  | action (fn : Nat) (arg : Option Nat)
deriving DecidableEq

/-- TRcuGroup.  The buffer e_[0 .. tail_) is the list buf (so a
well-formed group has buf.length = tail_ and head_ ≤ tail_); head_ marks
the consumed prefix.  The constructor leaves epoch_ uninitialized, which
is modelled as none; add never reads epoch_ while the group is empty,
so the uninitialized value is never consulted. -/
structure TRcuGroup where
  head : Nat
  tail : Nat
  capacity : Nat
  epoch : Option Nat
  buf : List RcuEntry
deriving DecidableEq

/-- A fresh group of the given capacity (TRcuGroup::make). -/
def TRcuGroup.make (capacity : Nat) : TRcuGroup :=
  ⟨0, 0, capacity, none, []⟩

/-- TRcuGroup::add.  The assert tail_ + 2 ≤ capacity_ is a precondition
(TRcuSet::add grows the chain first); it is carried as a hypothesis by the
theorems that need it.  A marker is written when the group is empty or the
group's current epoch differs from the one being enqueued; the action
entry itself always follows. -/
def TRcuGroup.add (g : TRcuGroup) (epoch : Nat) (fn : Nat) (arg : Option Nat) : TRcuGroup :=
  let g1 :=
    if g.head = g.tail ∨ g.epoch ≠ some epoch then
      { g with buf := g.buf ++ [.marker epoch], tail := g.tail + 1, epoch := some epoch }
    else g
  { g1 with buf := g1.buf ++ [.action fn arg], tail := g1.tail + 1 }

/-- N consecutive calls to add with a common epoch. -/
def TRcuGroup.addAll (g : TRcuGroup) (epoch : Nat) : List (Nat × Option Nat) → TRcuGroup
  | [] => g
  | (fn, arg) :: rest => (g.add epoch fn arg).addAll epoch rest

/-- The calls made by the destructor ~TRcuGroup on a residual entry list:
every entry with a non-null function pointer is invoked with its argument,
in order; markers (null function pointer) are skipped.  No epoch or
safe-epoch test occurs. -/
def destructFrom : List RcuEntry → List (Nat × Option Nat)
  | [] => []
  | .marker _ :: rest => destructFrom rest
  | .action fn arg :: rest => (fn, arg) :: destructFrom rest

/-- The calls made by ~TRcuGroup: it walks the entries remaining between
head_ and tail_. -/
def TRcuGroup.destructorCalls (g : TRcuGroup) : List (Nat × Option Nat) :=
  destructFrom (g.buf.drop g.head)

/-- Modelled from the spec (section 4.5 Drain): TRcuGroup::clean_until is
declared in the header but defined in TRcu.cc, which is not among the
sources.  Walk the entries from the head: an epoch marker at or below
max_epoch opens a run whose action entries are executed; the walk stops at
the first marker above max_epoch (or, before any marker has been seen, at
the first action entry).  Returns the unconsumed suffix and the fired
calls. -/
def drainFrom (maxE : Nat) : List RcuEntry → Bool → List RcuEntry × List (Nat × Option Nat)
  | [], _ => ([], [])
  | .marker ep :: rest, _ =>
    if ep ≤ maxE then drainFrom maxE rest true
    else (.marker ep :: rest, [])
  | .action fn arg :: rest, firing =>
    if firing then
      let (rem, fired) := drainFrom maxE rest true
      (rem, (fn, arg) :: fired)
    else (.action fn arg :: rest, [])

/-- Group-level drain: advance head_ past the consumed entries. -/
def TRcuGroup.cleanUntil (maxE : Nat) (g : TRcuGroup) : TRcuGroup × List (Nat × Option Nat) :=
  let (rem, fired) := drainFrom maxE (g.buf.drop g.head) false
  ({ g with head := g.tail - rem.length }, fired)

/-- TRcuSet: the chain of groups from first_ to current_, plus the
clean_epoch_ cache.  Group deallocation and reuse (the constructor,
grow() and the freeing of exhausted groups, all defined in TRcu.cc) are
memory management and are not modelled: drained groups stay in the chain
with head_ = tail_. -/
structure TRcuSet where
  groups : List TRcuGroup
  cleanEpoch : Nat
deriving DecidableEq

/-- Modelled from the spec (section 4.5 Drain): TRcuSet::hard_clean_until
(defined in TRcu.cc, not among the sources) drains the groups from the
head of the chain. -/
def TRcuSet.hardCleanUntil (s : TRcuSet) (maxE : Nat) : TRcuSet × List (Nat × Option Nat) :=
  let cleaned := s.groups.map (TRcuGroup.cleanUntil maxE)
  ({ s with groups := cleaned.map (·.1) }, (cleaned.map (·.2)).flatten)

/-- TRcuSet::clean_until, from the source header: hard-clean only when
clean_epoch_ differs from max_epoch, then store max_epoch into
clean_epoch_ unconditionally.  Returns the new set and the fired calls. -/
def TRcuSet.cleanUntil (s : TRcuSet) (maxE : Nat) : TRcuSet × List (Nat × Option Nat) :=
  if s.cleanEpoch ≠ maxE then
    let (s1, fired) := s.hardCleanUntil maxE
    ({ s1 with cleanEpoch := maxE }, fired)
  else ({ s with cleanEpoch := maxE }, [])

/-! ### The transactional unordered index (tpcc::unordered_index)

Template parameters: Opacity and ReadMyWrite are passed as the booleans
opacity and rmw; Adaptive is false (the OCC version types), as in every
instantiation found in the sources.  Pointers become indices: records live
in the recs heap, caller-allocated value_type rows in the vals heap, and a
bucket chain is the list of record indices reachable from the bucket head
(the intrusive next pointers become list order). -/

/-- tpcc::unordered_index::internal_elem (without the next pointer, which
is the chain order). -/
structure Record (K V : Type) where
  key : K
  version : Version
  value : V
  deleted : Bool
deriving DecidableEq

/-- The internal_elem constructor: Sto::initialized_tid(), or-ed with the
invalid (user) bit unless mark_valid.  The concrete initial TID constant
lives in Transaction.hh (not among the sources); only its shape — an
unlocked counter without flag bits — matters, modelled from the spec. -/
def initElemVersion (markValid : Bool) : Version :=
  ⟨1, false, false, !markValid⟩

/-- internal_elem::valid(): the invalid bit is clear. -/
def Record.valid {K V : Type} (r : Record K V) : Bool := !r.version.invalid

instance {K V : Type} [Inhabited K] [Inhabited V] : Inhabited (Record K V) :=
  ⟨⟨default, ⟨0, false, false, false⟩, default, false⟩⟩

/-- tpcc::unordered_index::bucket_entry: chain head and bucket version,
default-constructed as a null head with version 0. -/
structure BucketEntry where
  chain : List Nat
  version : Version
deriving DecidableEq

instance : Inhabited BucketEntry := ⟨⟨[], ⟨0, false, false, false⟩⟩⟩

/-- The container state: the bucket array map_, the record heap, and the
heap of caller-allocated value_type rows that insert_row / update_row take
ownership of. -/
structure IState (K V : Type) where
  buckets : List BucketEntry
  recs : List (Record K V)
  vals : List V
deriving DecidableEq

variable {K V : Type}

def IState.bucketAt (s : IState K V) (bi : Nat) : BucketEntry :=
  s.buckets.getD bi default

def IState.setBucket (s : IState K V) (bi : Nat) (b : BucketEntry) : IState K V :=
  { s with buckets := s.buckets.set bi b }

def IState.recAt [Inhabited K] [Inhabited V] (s : IState K V) (i : Nat) : Record K V :=
  s.recs.getD i default

/-- Dereference a possibly-null value_type pointer, v ? *v : value_type()
(as in insert_in_bucket). -/
def IState.valAt [Inhabited V] (s : IState K V) : Option Nat → V
  | some j => s.vals.getD j default
  | none => default

/-- Read the field value through an internal_elem pointer, as in
e->value or write_value\<internal_elem*\>()->value.  Defined only when the
word really addresses an internal_elem; a value_type address read at
internal_elem type reads unrelated bytes (undefined behavior), modelled as
none, as is a null or absent word. -/
def IState.elemValueRead (s : IState K V) : Option CPtr → Option V
  | some (.elem i) => (s.recs.get? i).map (·.value)
  | some (.val _) => none
  | none => none

/-- find_bucket_idx: hasher_(k) % nbuckets. -/
def findBucketIdx (hash : K → Nat) (s : IState K V) (k : K) : Nat :=
  hash k % s.buckets.length

/-- find_in_bucket: walk the chain until pred_(curr->key, k). -/
def findInChain [DecidableEq K] [Inhabited K] [Inhabited V]
    (recs : List (Record K V)) (k : K) : List Nat → Option Nat
  | [] => none
  | i :: rest => if (recs.getD i default).key = k then some i else findInChain recs k rest

def IState.findInBucket [DecidableEq K] [Inhabited K] [Inhabited V]
    (s : IState K V) (b : BucketEntry) (k : K) : Option Nat :=
  findInChain s.recs k b.chain

/-- is_phantom: the record is not valid and this transaction's item for it
has no insert flag. -/
def isPhantom (r : Record K V) (it : TransItem) : Bool :=
  !r.valid && !it.insertFlag

def IState.lockBucket (s : IState K V) (bi : Nat) : IState K V :=
  s.setBucket bi { s.bucketAt bi with version := (s.bucketAt bi).version.lock }

def IState.unlockBucket (s : IState K V) (bi : Nat) : IState K V :=
  s.setBucket bi { s.bucketAt bi with version := (s.bucketAt bi).version.unlocked }

/-- copy_row: a null new value means no copy. -/
def IState.copyRow [Inhabited K] [Inhabited V] (s : IState K V) (i : Nat) (vptr : Option Nat) :
    IState K V :=
  match vptr with
  | none => s
  | some j => { s with recs := s.recs.set i { s.recAt i with value := s.vals.getD j default } }

/-- insert_in_bucket: asserts that the bucket lock is held (modelled by
returning none when it is not — the call sites in the source hold it),
allocates a record (mark_valid = false gives it the invalid bit), splices
it at the chain head and bumps the bucket version with
inc_nonopaque_version. -/
def IState.insertInBucket [Inhabited V] (s : IState K V) (bi : Nat) (k : K)
    (vptr : Option Nat) (markValid : Bool) : Option (IState K V) :=
  let b := s.bucketAt bi
  if b.version.locked then
    some { (s.setBucket bi ⟨s.recs.length :: b.chain, b.version.incNonopaque⟩) with
           recs := s.recs ++ [⟨k, initElemVersion markValid, s.valAt vptr, false⟩] }
  else none

/-- _remove: unlink the node from its key's bucket chain (the walk with
prev/curr unlinks the first node that is pointer-equal to el).  The bucket
lock is taken and released around the unlink, restoring the lock bit; the
deferred Transaction::rcu_delete is reclamation and leaves the record
readable in the heap until the drain, so the heap is unchanged. -/
def IState.removeElem [Inhabited K] [Inhabited V] (hash : K → Nat) (s : IState K V) (i : Nat) :
    IState K V :=
  let bi := findBucketIdx hash s (s.recAt i).key
  let b := s.bucketAt bi
  s.setBucket bi { b with chain := b.chain.erase i }

/-- The return tuple of select_row: (success, found, row id, and what the
returned value pointer reads in the post-state — none for a null or
undefined pointer). -/
abbrev SelRet (V : Type) := Bool × Bool × Option Nat × Option V

abbrev InsRet := Bool × Bool
abbrev DelRet := Bool × Bool

/-- The found branch of select_row. -/
def selectRowFound [Inhabited K] [Inhabited V] (rmw opacity : Bool)
    (s : IState K V) (t : Txn) (ei : Nat) (forUpdate : Bool) :
    SelRet V × IState K V × Txn :=
  let e := s.recAt ei
  let t1 := t.ensure (.elem ei)
  let item := t1.item (.elem ei)
  if isPhantom e item then ((false, false, none, none), s, t1)
  else if rmw && item.deleteFlag then ((true, false, none, none), s, t1)
  else if rmw && item.writev.isSome then
    -- return &(item.write_value<internal_elem*>()->value): the stored
    -- write word (a value_type pointer) dereferenced at internal_elem type
    ((true, true, some ei, s.elemValueRead ((item.writev.getD .blank).ptrWord)), s, t1)
  else if forUpdate then
    match selectForUpdate opacity item e.version with
    | (false, it') => ((false, false, none, none), s, t1.set (.elem ei) it')
    | (true, it') => ((true, true, some ei, some e.value), s, t1.set (.elem ei) it')
  else
    match observe opacity item e.version with
    | (false, it') => ((false, false, none, none), s, t1.set (.elem ei) it')
    | (true, it') => ((true, true, some ei, some e.value), s, t1.set (.elem ei) it')

/-- tpcc::unordered_index::select_row. -/
def select_row [DecidableEq K] [Inhabited K] [Inhabited V] (rmw opacity : Bool)
    (hash : K → Nat) (s : IState K V) (t : Txn) (k : K) (forUpdate : Bool) :
    SelRet V × IState K V × Txn :=
  let bi := findBucketIdx hash s k
  let buck := s.bucketAt bi
  match s.findInBucket buck k with
  | some ei => selectRowFound rmw opacity s t ei forUpdate
  | none =>
    let t1 := t.ensure (.tag bi)
    match observe opacity (t1.item (.tag bi)) buck.version with
    | (true, it') => ((true, false, none, none), s, t1.set (.tag bi) it')
    | (false, it') => ((false, false, none, none), s, t1.set (.tag bi) it')

/-- The found branch of insert_row (the bucket lock has already been
released). -/
def insertRowFound [Inhabited K] [Inhabited V] (rmw opacity : Bool)
    (s : IState K V) (t : Txn) (ei : Nat) (vptr : Option Nat) (overwrite : Bool) :
    InsRet × IState K V × Txn :=
  let e := s.recAt ei
  let t1 := t.ensure (.elem ei)
  let item := t1.item (.elem ei)
  if isPhantom e item then ((false, false), s, t1)
  else if rmw && item.deleteFlag then
    -- clear_flags(delete_bit).clear_write().add_write<value_type*>(vptr)
    ((true, false), s,
      t1.set (.elem ei) { item with deleteFlag := false, writev := some (.ptr (vptr.map .val)) })
  else if overwrite then
    -- select_for_overwrite for the OCC version types: add_write(vptr);
    -- then in read-my-writes mode copy directly into a row this
    -- transaction inserted
    let it' := { item with writev := some (.ptr (vptr.map .val)) }
    let s' := if rmw && it'.insertFlag then s.copyRow ei vptr else s
    ((true, true), s', t1.set (.elem ei) it')
  else
    match observe opacity item e.version with
    | (true, it') => ((true, true), s, t1.set (.elem ei) it')
    | (false, it') => ((false, false), s, t1.set (.elem ei) it')

/-- The absent branch of insert_row (the bucket lock is held on entry). -/
def insertRowAbsent [Inhabited K] [Inhabited V] (s : IState K V) (t : Txn) (bi : Nat)
    (k : K) (vptr : Option Nat) : InsRet × IState K V × Txn :=
  let v0 := (s.bucketAt bi).version.unlocked
  match s.insertInBucket bi k vptr false with
  | none => ((false, false), s, t)  -- assert failure: unreachable from insert_row, which locked the bucket just above
  | some s1 =>
    let newId := ((s1.bucketAt bi).chain.headD 0)  -- new_head = buck.head
    let v1 := (s1.bucketAt bi).version.unlocked
    let s2 := s1.unlockBucket bi
    -- if the bucket version is in the read set, upgrade the observation
    -- (TransProxy::update_read replaces the recorded v0 with v1)
    let t1 := t.ensure (.tag bi)
    let bitem := t1.item (.tag bi)
    let t2 := if bitem.readv = some v0 then t1.set (.tag bi) { bitem with readv := some v1 } else t1
    -- add an INSERT-flagged write item for the new record
    let t3 := t2.ensure (.elem newId)
    let item := t3.item (.elem newId)
    ((true, false), s2,
      t3.set (.elem newId) { item with writev := some (.ptr (vptr.map .val)), insertFlag := true })

/-- tpcc::unordered_index::insert_row. -/
def insert_row [DecidableEq K] [Inhabited K] [Inhabited V] (rmw opacity : Bool)
    (hash : K → Nat) (s : IState K V) (t : Txn) (k : K) (vptr : Option Nat)
    (overwrite : Bool) : InsRet × IState K V × Txn :=
  let bi := findBucketIdx hash s k
  let sL := s.lockBucket bi
  match sL.findInBucket (sL.bucketAt bi) k with
  | some ei => insertRowFound rmw opacity (sL.unlockBucket bi) t ei vptr overwrite
  | none => insertRowAbsent sL t bi k vptr

/-- The found branch of delete_row. -/
def deleteRowFound [Inhabited K] [Inhabited V] (rmw opacity : Bool) (hash : K → Nat)
    (s : IState K V) (t : Txn) (bi : Nat) (buckVers : Version) (ei : Nat) :
    DelRet × IState K V × Txn :=
  let e := s.recAt ei
  let t1 := t.ensure (.elem ei)
  let item := t1.item (.elem ei)
  if isPhantom e item then ((false, false), s, t1)
  else if rmw && (!e.valid && item.insertFlag) then
    -- deleting something this transaction inserted: unlink it now, drop
    -- the item's read, write and flags, and observe the bucket version
    let s1 := s.removeElem hash ei
    let t2 := t1.set (.elem ei) freshItem
    let t3 := t2.ensure (.tag bi)
    let obs := observe opacity (t3.item (.tag bi)) buckVers
    ((true, true), s1, t3.set (.tag bi) obs.2)
  else if rmw && item.deleteFlag then ((true, false), s, t1)
  else
    match selectForUpdate opacity item e.version with
    | (false, it') => ((false, false), s, t1.set (.elem ei) it')
    | (true, it') =>
      -- after the fence, re-check the deleted flag
      if e.deleted then ((false, false), s, t1.set (.elem ei) it')
      else ((true, true), s, t1.set (.elem ei) { it' with deleteFlag := true })

/-- tpcc::unordered_index::delete_row. -/
def delete_row [DecidableEq K] [Inhabited K] [Inhabited V] (rmw opacity : Bool)
    (hash : K → Nat) (s : IState K V) (t : Txn) (k : K) : DelRet × IState K V × Txn :=
  let bi := findBucketIdx hash s k
  let buck := s.bucketAt bi
  match s.findInBucket buck k with
  | some ei => deleteRowFound rmw opacity hash s t bi buck.version ei
  | none =>
    let t1 := t.ensure (.tag bi)
    match observe opacity (t1.item (.tag bi)) buck.version with
    | (true, it') => ((true, false), s, t1.set (.tag bi) it')
    | (false, it') => ((false, false), s, t1.set (.tag bi) it')

/-! ### List and state lemmas -/

theorem getD_set_self {α : Type} (l : List α) (i : Nat) (b d : α) (h : i < l.length) :
    (l.set i b).getD i d = b := by
  induction l generalizing i with
  | nil => simp at h
  | cons hd tl ih =>
    cases i with
    | zero => simp [List.set]
    | succ j => simpa [List.set] using ih j (by simpa using h)

theorem getD_set_ne {α : Type} (l : List α) (i j : Nat) (b d : α) (h : j ≠ i) :
    (l.set i b).getD j d = l.getD j d := by
  induction l generalizing i j with
  | nil => simp [List.set]
  | cons hd tl ih =>
    cases i with
    | zero =>
      cases j with
      | zero => exact absurd rfl h
      | succ j0 => simp [List.set]
    | succ i0 =>
      cases j with
      | zero => simp [List.set]
      | succ j0 => simpa [List.set] using ih i0 j0 (fun hh => h (hh ▸ rfl))

theorem set_getD_self {α : Type} (l : List α) (i : Nat) (d : α) (h : i < l.length) :
    l.set i (l.getD i d) = l := by
  induction l generalizing i with
  | nil => rfl
  | cons hd tl ih =>
    cases i with
    | zero => simp [List.set]
    | succ j => simpa [List.set] using ih j (by simpa using h)

theorem getD_append_self {α : Type} (l : List α) (a d : α) :
    (l ++ [a]).getD l.length d = a := by
  rw [List.getD_append_right _ _ _ _ (Nat.le_refl _)]
  simp

variable {K V : Type}

@[simp] theorem recs_setBucket (s : IState K V) (bi : Nat) (b : BucketEntry) :
    (s.setBucket bi b).recs = s.recs := rfl

@[simp] theorem vals_setBucket (s : IState K V) (bi : Nat) (b : BucketEntry) :
    (s.setBucket bi b).vals = s.vals := rfl

@[simp] theorem length_buckets_setBucket (s : IState K V) (bi : Nat) (b : BucketEntry) :
    (s.setBucket bi b).buckets.length = s.buckets.length := by
  simp [IState.setBucket]

theorem bucketAt_setBucket_self (s : IState K V) (bi : Nat) (b : BucketEntry)
    (h : bi < s.buckets.length) : (s.setBucket bi b).bucketAt bi = b := by
  show (s.buckets.set bi b).getD bi default = b
  exact getD_set_self _ _ _ _ h

theorem bucketAt_setBucket_ne (s : IState K V) (bi bj : Nat) (b : BucketEntry)
    (h : bj ≠ bi) : (s.setBucket bi b).bucketAt bj = s.bucketAt bj := by
  show (s.buckets.set bi b).getD bj default = s.buckets.getD bj default
  exact getD_set_ne _ _ _ _ _ h

theorem setBucket_setBucket (s : IState K V) (bi : Nat) (b b' : BucketEntry) :
    (s.setBucket bi b).setBucket bi b' = s.setBucket bi b' := by
  simp [IState.setBucket, List.set_set]

theorem setBucket_bucketAt_self (s : IState K V) (bi : Nat) (h : bi < s.buckets.length) :
    s.setBucket bi (s.bucketAt bi) = s := by
  show IState.mk (s.buckets.set bi (s.buckets.getD bi default)) s.recs s.vals = s
  rw [set_getD_self _ _ _ h]

theorem version_eta (v : Version) (h : v.locked = false) :
    (⟨v.counter, false, v.nonopaque, v.invalid⟩ : Version) = v := by
  cases v with
  | mk c l n i => simp at h; simp [h]

/-- findInChain only consults records the chain points at, so extending the
heap does not change it while the chain stays in bounds. -/
theorem findInChain_append [DecidableEq K] [Inhabited K] [Inhabited V]
    (recs ext : List (Record K V)) (k : K) (chain : List Nat)
    (hwf : ∀ i ∈ chain, i < recs.length) :
    findInChain (recs ++ ext) k chain = findInChain recs k chain := by
  induction chain with
  | nil => rfl
  | cons i rest ih =>
    have hi : i < recs.length := hwf i (List.mem_cons_self i rest)
    have hrest : ∀ j ∈ rest, j < recs.length := fun j hj => hwf j (List.mem_cons_of_mem i hj)
    simp only [findInChain]
    rw [List.getD_append _ _ _ _ hi, ih hrest]

/-! ### Forward range scan of the ordered index, on a one-leaf table

The masstree headers are not among the sources, so the traversal driver is
modelled from the spec (section 4.3 Range scan): the cursor starts at the
first key at or after begin, visits the leaf once (registering an
internode observation and running range_scanner::check), then feeds the
leaf's keys in ascending order to range_scanner::visit_value.
range_scanner::check and visit_value and the value callback of range_scan
are translated from the source, specialized to one leaf of 8-byte keys
(key slices become naturals; such a key has prefix length 0, so the
source's memcmp compares zero bytes and check reduces to comparing the
8-byte boundary slice with the leaf's last ikey).  ReadMyWrite is false,
the default of every ordered_index instantiation in the sources, so the
read-my-writes block of the value callback is dead code and omitted. -/

/-- tpcc::ordered_index::internal_elem, keyed externally by the leaf. -/
structure OElem (V : Type) where
  version : Version
  value : V
  deleted : Bool
deriving DecidableEq

/-- A single masstree leaf: node version and key-sorted contents. -/
structure OLeaf (V : Type) where
  version : Version
  pairs : List (Nat × OElem V)
deriving DecidableEq

/-- range_scanner::check, forward mode, for a one-leaf table of 8-byte
keys: boundary_compar_ = (boundary slice ≤ the leaf's last ikey). -/
def scannerCheck {V : Type} (boundary : Nat) (leaf : OLeaf V) : Bool :=
  boundary ≤ ((leaf.pairs.map (·.1)).getLast?.getD 0)

/-- One visit_value step per candidate, in leaf order; elements are
identified in the transaction by their key.  Returns the transaction, the
(key, value) pairs delivered to the user callback, and scan_succeeded_.
Stopping at the boundary leaves scan_succeeded_ true; a failed version
observation, or the user callback returning false, clears it. -/
def scanValues {V : Type} (opacity : Bool) (cb : Nat → V → Bool) (boundary : Nat)
    (bcompar : Bool) : List (Nat × OElem V) → Txn → Txn × List (Nat × V) × Bool
  | [], t => (t, [], true)
  | (key, e) :: rest, t =>
    if bcompar && boundary ≤ key then (t, [], true)
    else
      let t1 := t.ensure (.elem key)
      match observe opacity (t1.item (.elem key)) e.version with
      | (false, it') => (t1.set (.elem key) it', [], false)
      | (true, it') =>
        let t2 := t1.set (.elem key) it'
        if e.version.invalid then
          -- invalid (inserted but not yet committed) values are skipped
          -- without aborting the scan
          scanValues opacity cb boundary bcompar rest t2
        else if cb key e.value then
          let r := scanValues opacity cb boundary bcompar rest t2
          (r.1, (key, e.value) :: r.2.1, r.2.2)
        else (t2, [(key, e.value)], false)

/-- range_scan, forward (Reverse = false), over a one-leaf table. -/
def rangeScan {V : Type} (opacity : Bool) (leaf : OLeaf V) (t : Txn)
    (begink endk : Nat) (cb : Nat → V → Bool) : Txn × List (Nat × V) × Bool :=
  -- visit_leaf: register the internode observation (node id 0), then check
  let t1 := t.ensure (.tag 0)
  let obs := observe opacity (t1.item (.tag 0)) leaf.version
  let t2 := t1.set (.tag 0) obs.2
  let bcompar := scannerCheck endk leaf
  let r := scanValues opacity cb endk bcompar (leaf.pairs.filter (fun p => begink ≤ p.1)) t2
  (r.1, r.2.1, obs.1 && r.2.2)

/-! ### Theorems about the RCU queue -/

/-- The action entry carried by an RCU ring-buffer element, if any. -/
def actionOf : RcuEntry → Option (Nat × Option Nat)
  | .marker _ => none
  | .action fn arg => some (fn, arg)

/-- Rewrite the epoch carried by a marker, leaving actions untouched. -/
def remapMarker (remap : Nat → Nat) : RcuEntry → RcuEntry
  | .marker ep => .marker (remap ep)
  | .action fn arg => .action fn arg

theorem destructFrom_eq_filterMap (l : List RcuEntry) :
    destructFrom l = l.filterMap actionOf := by
  induction l with
  | nil => rfl
  | cons e rest ih => cases e <;> simp [destructFrom, actionOf, ih]

theorem destructFrom_remap (remap : Nat → Nat) (l : List RcuEntry) :
    destructFrom (l.map (remapMarker remap)) = destructFrom l := by
  induction l with
  | nil => rfl
  | cons e rest ih => cases e <;> simp [destructFrom, remapMarker, ih]

/-- Claim C8: destroying an RCU group executes every residual action entry
remaining between its head and tail, in FIFO order, unconditionally: the
calls are exactly the action entries of the residual suffix in order
(markers, which have a null function pointer, are merely skipped), and the
trace is invariant under arbitrarily rewriting every marker's epoch, so no
epoch or safe-epoch bound plays any role (indeed the destructor receives
no bound). -/
theorem C8_group_destructor_drains_residual (g : TRcuGroup) (remap : Nat → Nat) :
    g.destructorCalls = (g.buf.drop g.head).filterMap actionOf
    ∧ TRcuGroup.destructorCalls
        { g with buf := g.buf.map (remapMarker remap) } = g.destructorCalls := by
  refine ⟨destructFrom_eq_filterMap _, ?_⟩
  show destructFrom ((g.buf.map (remapMarker remap)).drop g.head) = _
  rw [← List.map_drop]
  exact destructFrom_remap remap _

/-- Adding an action entry to a nonempty group whose current epoch already
equals the enqueued epoch appends no marker. -/
theorem add_same_epoch (g : TRcuGroup) (e fn : Nat) (arg : Option Nat)
    (hne : g.head ≠ g.tail) (heq : g.epoch = some e) :
    g.add e fn arg =
      { g with buf := g.buf ++ [.action fn arg], tail := g.tail + 1 } := by
  unfold TRcuGroup.add
  simp [hne, heq]

/-- Consecutive same-epoch adds onto a nonempty group whose epoch already
matches append exactly the action entries. -/
theorem addAll_same_epoch (e : Nat) (ps : List (Nat × Option Nat)) :
    ∀ (g : TRcuGroup), g.head ≤ g.tail → g.head ≠ g.tail → g.epoch = some e →
    g.addAll e ps =
      { g with buf := g.buf ++ ps.map (fun p => RcuEntry.action p.1 p.2),
               tail := g.tail + ps.length } := by
  induction ps with
  | nil =>
    intro g _ _ _
    simp [TRcuGroup.addAll]
  | cons p rest ih =>
    intro g hle hne heq
    obtain ⟨fn, arg⟩ := p
    show (g.add e fn arg).addAll e rest = _
    rw [add_same_epoch g e fn arg hne heq]
    have happ := ih { g with tail := g.tail + 1, buf := g.buf ++ [RcuEntry.action fn arg] }
      (by simp; omega) (by simp; omega) heq
    rw [happ]
    simp [Nat.add_comm, Nat.add_assoc, Nat.add_left_comm]

/-- Claim C6: a marker is written only when the group's most recent epoch
differs from the enqueued one (a nonempty group with matching epoch gets
no marker, only the action entry), and a run of N same-epoch deferrals
starting when the group is empty or its epoch differs produces exactly one
marker followed by the N action entries, which inherit that epoch. -/
theorem C6_epoch_marker_compression (g : TRcuGroup) (e fn : Nat) (arg : Option Nat)
    (ps : List (Nat × Option Nat)) (hwf : g.head ≤ g.tail) :
    (g.head ≠ g.tail → g.epoch = some e →
      (g.add e fn arg).buf = g.buf ++ [.action fn arg])
    ∧ ((g.head = g.tail ∨ g.epoch ≠ some e) →
      (g.addAll e ((fn, arg) :: ps)).buf =
        g.buf ++ [.marker e] ++ [.action fn arg] ++ ps.map (fun p => RcuEntry.action p.1 p.2)
      ∧ (g.addAll e ((fn, arg) :: ps)).epoch = some e) := by
  constructor
  · intro hne heq
    rw [add_same_epoch g e fn arg hne heq]
  · intro hcond
    have hadd : g.add e fn arg =
        { g with buf := g.buf ++ [.marker e] ++ [.action fn arg],
                 tail := g.tail + 2, epoch := some e } := by
      unfold TRcuGroup.add
      rcases hcond with h | h
      · simp [h]
      · by_cases h0 : g.head = g.tail
        · simp [h0]
        · simp [h0, h]
    show ((g.add e fn arg).addAll e ps).buf = _ ∧ ((g.add e fn arg).addAll e ps).epoch = some e
    rw [hadd]
    rw [addAll_same_epoch e ps _ (by simp; omega) (by simp; omega) rfl]
    simp

/-- Witness for C6 at a concrete input: a fresh group of capacity 8, three
deferrals at epoch 5. -/
theorem C6_epoch_marker_compression_witness :
    ((TRcuGroup.make 8).head ≤ (TRcuGroup.make 8).tail)
    ∧ ((TRcuGroup.make 8).head = (TRcuGroup.make 8).tail ∨ (TRcuGroup.make 8).epoch ≠ some 5)
    ∧ ((TRcuGroup.make 8).addAll 5 ((1, some 10) :: [(2, none), (3, some 11)])).buf =
        (TRcuGroup.make 8).buf ++ [.marker 5] ++ [.action 1 (some 10)] ++
          [(2, none), (3, some 11)].map (fun p => RcuEntry.action p.1 p.2) := by
  refine ⟨by decide, by decide, ?_⟩
  exact ((C6_epoch_marker_compression (TRcuGroup.make 8) 5 1 (some 10)
    [(2, none), (3, some 11)] (by decide)).2 (by decide)).1

/-- A fully drained group is left untouched by a further drain, which
fires nothing. -/
theorem cleanUntil_exhausted (maxE : Nat) (g : TRcuGroup)
    (hht : g.head = g.tail) (hbuf : g.buf.length ≤ g.head) :
    TRcuGroup.cleanUntil maxE g = (g, []) := by
  obtain ⟨hd, tl, cap, ep, buf⟩ := g
  simp only at hht hbuf
  subst hht
  simp [TRcuGroup.cleanUntil, List.drop_eq_nil_of_le hbuf, drainFrom]

/-- Counterexample to claim C7 as stated: on a set holding one fresh
(empty) group with clean_epoch_ 0, clean_until(5) fires no callback but
advances the set's internal clean_epoch_ from 0 to 5, because the source
stores max_epoch into clean_epoch_ unconditionally. -/
theorem C7_counterexample_clean_epoch_advances :
    (TRcuSet.cleanUntil ⟨[TRcuGroup.make 4], 0⟩ 5).2 = []
    ∧ (TRcuSet.cleanUntil ⟨[TRcuGroup.make 4], 0⟩ 5).1.cleanEpoch = 5
    ∧ (TRcuSet.cleanUntil ⟨[TRcuGroup.make 4], 0⟩ 5).1.cleanEpoch ≠
        (⟨[TRcuGroup.make 4], 0⟩ : TRcuSet).cleanEpoch := by
  refine ⟨by decide, by decide, by decide⟩

/-- Claim C7, amended: clean_until(max_epoch) on a set whose queue is
empty (every group fully consumed) fires no callbacks and leaves every
group — hence every group epoch — unchanged; it does, however, store
max_epoch into the set's clean_epoch_ field. -/
theorem flatten_map_nil {α β : Type} (l : List α) :
    (l.map (fun _ => ([] : List β))).flatten = [] := by
  induction l with
  | nil => rfl
  | cons hd tl ih => simp [ih]

theorem hardCleanUntil_exhausted (s : TRcuSet) (maxE : Nat)
    (hempty : ∀ g ∈ s.groups, g.head = g.tail ∧ g.buf.length ≤ g.head) :
    s.hardCleanUntil maxE = (s, []) := by
  have hgroups : s.groups.map (TRcuGroup.cleanUntil maxE) = s.groups.map (fun g => (g, [])) := by
    apply List.map_congr_left
    intro g hg
    exact cleanUntil_exhausted maxE g (hempty g hg).1 (hempty g hg).2
  show ({ s with groups := (s.groups.map (TRcuGroup.cleanUntil maxE)).map (fun x => x.1) },
        ((s.groups.map (TRcuGroup.cleanUntil maxE)).map (fun x => x.2)).flatten) = (s, [])
  rw [hgroups, List.map_map, List.map_map, Prod.mk.injEq]
  constructor
  · show { s with groups := s.groups.map ((fun x => x.1) ∘ (fun g => (g, []))) } = s
    have hid : ((fun x : TRcuGroup × List (Nat × Option Nat) => x.1) ∘ (fun g => (g, []))) =
        fun g : TRcuGroup => g := rfl
    rw [hid, List.map_id']
  · have hnil : ((fun x : TRcuGroup × List (Nat × Option Nat) => x.2) ∘
        (fun g : TRcuGroup => (g, ([] : List (Nat × Option Nat))))) =
        fun _ => ([] : List (Nat × Option Nat)) := rfl
    rw [hnil]
    exact flatten_map_nil s.groups

theorem C7_empty_drain_no_callbacks (s : TRcuSet) (maxE : Nat)
    (hempty : ∀ g ∈ s.groups, g.head = g.tail ∧ g.buf.length ≤ g.head) :
    (s.cleanUntil maxE).2 = []
    ∧ (s.cleanUntil maxE).1.groups = s.groups
    ∧ (s.cleanUntil maxE).1.cleanEpoch = maxE := by
  unfold TRcuSet.cleanUntil
  by_cases h : s.cleanEpoch = maxE
  · simp [h]
  · rw [if_pos h, hardCleanUntil_exhausted s maxE hempty]
    exact ⟨rfl, rfl, rfl⟩

/-- Witness for C7's amended theorem at a concrete input: a set holding a
fully consumed group (two entries, both consumed) and clean_epoch_ 0,
drained to epoch 5. -/
theorem C7_empty_drain_no_callbacks_witness :
    (∀ g ∈ (⟨[⟨2, 2, 8, some 3, [.marker 3, .action 1 none]⟩], 0⟩ : TRcuSet).groups,
        g.head = g.tail ∧ g.buf.length ≤ g.head)
    ∧ (TRcuSet.cleanUntil ⟨[⟨2, 2, 8, some 3, [.marker 3, .action 1 none]⟩], 0⟩ 5).2 = []
    ∧ (TRcuSet.cleanUntil ⟨[⟨2, 2, 8, some 3, [.marker 3, .action 1 none]⟩], 0⟩ 5).1.groups =
        (⟨[⟨2, 2, 8, some 3, [.marker 3, .action 1 none]⟩], 0⟩ : TRcuSet).groups := by
  refine ⟨by decide, ?_, ?_⟩
  · exact (C7_empty_drain_no_callbacks _ 5 (by decide)).1
  · exact (C7_empty_drain_no_callbacks _ 5 (by decide)).2.1

/-! ### Theorems about the unordered index -/

/-- A one-bucket read-my-writes table holding no records and one
caller-allocated row with value 7, and the first-step run of the C1
scenario: insert_row(1, ptr-to-7) in a fresh transaction. -/
def c1Insert : InsRet × IState Nat Nat × Txn :=
  insert_row true true (fun k => k) ⟨[⟨[], ⟨0, false, false, false⟩⟩], [], [7]⟩ ⟨[]⟩ 1 (some 0) false

/-- The second step of the C1 scenario: select_row(1) in the same
transaction. -/
def c1Select : SelRet Nat × IState Nat Nat × Txn :=
  select_row true true (fun k => k) c1Insert.2.1 c1Insert.2.2 1 false

/-- Claim C1 (code bug): with ReadMyWrite on, insert_row(1, &v) for v = 7
succeeds, and the same transaction's select_row(1) returns ok and found —
but the value pointer it returns does not read 7: the read-my-writes
branch of select_row returns
&(item.write_value\<internal_elem*\>()->value), reinterpreting the staged
value_type pointer as an internal_elem, an undefined read (none in the
model).  The staged row still holds 7 (last conjunct), and the
ordered_index select_row handles the same case correctly, so the claim
matches the intent and the unordered code mis-casts. -/
theorem C1_rmw_insert_then_select_misreads :
    c1Insert.1 = (true, false)
    ∧ c1Select.1.1 = true
    ∧ c1Select.1.2.1 = true
    ∧ c1Select.1.2.2.2 = none
    ∧ c1Select.1.2.2.2 ≠ some 7
    ∧ c1Select.2.1.vals.getD 0 0 = 7 := by
  refine ⟨by decide, by decide, by decide, by decide, by decide, by decide⟩

/-- A one-bucket table holding a single valid committed record (key 1,
value 7, not deleted), for the C5 counterexample. -/
def c5State : IState Nat Nat :=
  ⟨[⟨[0], ⟨3, false, false, false⟩⟩], [⟨1, ⟨5, false, false, false⟩, 7, false⟩], []⟩

/-- A transaction whose item for that record carries the DELETE flag
(as left behind by an earlier same-transaction delete_row). -/
def c5Txn : Txn :=
  ⟨[(.elem 0, ⟨some ⟨5, false, false, false⟩, some .blank, false, true⟩)]⟩

/-- Counterexample to claim C5 as stated: key 1 is present as a valid
non-phantom record, yet in read-my-writes mode delete_row(1) returns
(ok = true, found = false) — it neither acquires the record for update,
nor re-checks the deleted flag, nor returns found = true — because the
transaction's item already carries the DELETE flag and the source returns
early.  The record and the transaction item are left untouched. -/
theorem C5_counterexample_pending_delete :
    (c5State.recAt 0).valid = true
    ∧ (delete_row true true (fun k => k) c5State c5Txn 1).1 = (true, false)
    ∧ (delete_row true true (fun k => k) c5State c5Txn 1).2.1 = c5State
    ∧ (delete_row true true (fun k => k) c5State c5Txn 1).2.2 = c5Txn := by
  refine ⟨by decide, by decide, by decide, by decide⟩

theorem findBucketIdx_lt (hash : K → Nat) (s : IState K V) (k : K)
    (hlen : 0 < s.buckets.length) : findBucketIdx hash s k < s.buckets.length :=
  Nat.mod_lt _ hlen

/-- The bucket version after an insert: counter bumped once, nonopaque bit
set, lock released. -/
def bumpedV (v : Version) : Version := ⟨v.counter + 1, false, true, v.invalid⟩

theorem lock_incNonopaque_unlocked (v : Version) :
    (v.lock.incNonopaque).unlocked = bumpedV v := rfl

theorem lock_unlocked (v : Version) : (v.lock).unlocked = v.unlocked := rfl

@[simp] theorem item_set_tag_elem (t : Txn) (i j : Nat) (it : TransItem) :
    (t.set (.tag i) it).item (.elem j) = t.item (.elem j) :=
  item_set_ne t (.tag i) (.elem j) it (by simp)

@[simp] theorem item_set_elem_tag (t : Txn) (i j : Nat) (it : TransItem) :
    (t.set (.elem i) it).item (.tag j) = t.item (.tag j) :=
  item_set_ne t (.elem i) (.tag j) it (by simp)

theorem insert_row_absent_eq [DecidableEq K] [Inhabited K] [Inhabited V]
    (rmw op ow : Bool) (hash : K → Nat) (s : IState K V) (t : Txn) (k : K) (vptr : Option Nat)
    (hlen : 0 < s.buckets.length)
    (hfind : findInChain s.recs k (s.bucketAt (findBucketIdx hash s k)).chain = none) :
    insert_row rmw op hash s t k vptr ow =
      ((true, false),
       ⟨s.buckets.set (findBucketIdx hash s k)
          ⟨s.recs.length :: (s.bucketAt (findBucketIdx hash s k)).chain,
           bumpedV (s.bucketAt (findBucketIdx hash s k)).version⟩,
        s.recs ++ [⟨k, initElemVersion false, s.valAt vptr, false⟩],
        s.vals⟩,
       (if (t.item (.tag (findBucketIdx hash s k))).readv =
            some (s.bucketAt (findBucketIdx hash s k)).version.unlocked
        then (t.ensure (.tag (findBucketIdx hash s k))).set (.tag (findBucketIdx hash s k))
               { t.item (.tag (findBucketIdx hash s k)) with
                 readv := some (bumpedV (s.bucketAt (findBucketIdx hash s k)).version) }
        else t.ensure (.tag (findBucketIdx hash s k))).set (.elem s.recs.length)
          { t.item (.elem s.recs.length) with
              writev := some (.ptr (vptr.map .val)), insertFlag := true }) := by
  have hbi : findBucketIdx hash s k < s.buckets.length := findBucketIdx_lt hash s k hlen
  have hlockB : (s.lockBucket (findBucketIdx hash s k)).bucketAt (findBucketIdx hash s k) =
      ⟨(s.bucketAt (findBucketIdx hash s k)).chain,
       (s.bucketAt (findBucketIdx hash s k)).version.lock⟩ := by
    unfold IState.lockBucket
    rw [bucketAt_setBucket_self _ _ _ hbi]
  simp only [insert_row]
  have hscrut : (s.lockBucket (findBucketIdx hash s k)).findInBucket
      ((s.lockBucket (findBucketIdx hash s k)).bucketAt (findBucketIdx hash s k)) k = none := by
    show findInChain s.recs k
        ((s.lockBucket (findBucketIdx hash s k)).bucketAt (findBucketIdx hash s k)).chain = none
    rw [hlockB]
    exact hfind
  rw [hscrut]
  show insertRowAbsent (s.lockBucket (findBucketIdx hash s k)) t (findBucketIdx hash s k) k vptr = _
  simp only [insertRowAbsent]
  have hins : (s.lockBucket (findBucketIdx hash s k)).insertInBucket
      (findBucketIdx hash s k) k vptr false = some
      ⟨s.buckets.set (findBucketIdx hash s k)
         ⟨s.recs.length :: (s.bucketAt (findBucketIdx hash s k)).chain,
          (s.bucketAt (findBucketIdx hash s k)).version.lock.incNonopaque⟩,
       s.recs ++ [⟨k, initElemVersion false, s.valAt vptr, false⟩],
       s.vals⟩ := by
    simp only [IState.insertInBucket, hlockB]
    simp only [Version.lock]
    rw [if_pos trivial]
    simp only [IState.lockBucket, IState.setBucket, List.set_set]
    rfl
  rw [hins]
  have hS1b : (IState.bucketAt
      ⟨s.buckets.set (findBucketIdx hash s k)
         ⟨s.recs.length :: (s.bucketAt (findBucketIdx hash s k)).chain,
          (s.bucketAt (findBucketIdx hash s k)).version.lock.incNonopaque⟩,
       s.recs ++ [⟨k, initElemVersion false, s.valAt vptr, false⟩],
       s.vals⟩ (findBucketIdx hash s k)) =
      ⟨s.recs.length :: (s.bucketAt (findBucketIdx hash s k)).chain,
       (s.bucketAt (findBucketIdx hash s k)).version.lock.incNonopaque⟩ := by
    show (s.buckets.set _ _).getD _ default = _
    exact getD_set_self _ _ _ _ hbi
  simp only [hS1b, hlockB, lock_unlocked, lock_incNonopaque_unlocked, List.headD_cons,
    lookupItem_ensure, item_set_tag_elem, IState.unlockBucket, IState.setBucket,
    List.set_set]
  rw [ensure_set]
  simp only [apply_ite (fun tt : Txn => tt.item (ItemKey.elem s.recs.length)),
    item_set_tag_elem, lookupItem_ensure, ite_self]

/-- The concrete table of the C3 witness run: one empty bucket, no
records, one caller-allocated row holding 7. -/
def c3S : IState Nat Nat := ⟨[⟨[], ⟨0, false, false, false⟩⟩], [], [7]⟩

/-- Claim C3: inserting a key absent from its bucket returns
(ok = true, found = false), allocates a record carrying the INVALID
marker, splices it at the head of the bucket chain, bumps the bucket
version counter by exactly one — the splice runs through
insert_in_bucket, whose locked-bucket assertion the proof discharges, and
the lock is released afterwards — upgrades a prior read-set observation
of the bucket's version to the post-insert counter, and stages an
INSERT-flagged write item carrying the value pointer for the new
record. -/
theorem C3_insert_absent_spec [DecidableEq K] [Inhabited K] [Inhabited V]
    (rmw op ow : Bool) (hash : K → Nat) (s : IState K V) (t : Txn) (k : K) (vptr : Option Nat)
    (hlen : 0 < s.buckets.length)
    (hfind : findInChain s.recs k (s.bucketAt (findBucketIdx hash s k)).chain = none)
    (hfresh : t.item (.elem s.recs.length) = freshItem) :
    (insert_row rmw op hash s t k vptr ow).1 = (true, false)
    ∧ (insert_row rmw op hash s t k vptr ow).2.1.recs =
        s.recs ++ [⟨k, ⟨1, false, false, true⟩, s.valAt vptr, false⟩]
    ∧ ((insert_row rmw op hash s t k vptr ow).2.1.bucketAt (findBucketIdx hash s k)).chain =
        s.recs.length :: (s.bucketAt (findBucketIdx hash s k)).chain
    ∧ ((insert_row rmw op hash s t k vptr ow).2.1.bucketAt (findBucketIdx hash s k)).version =
        bumpedV (s.bucketAt (findBucketIdx hash s k)).version
    ∧ ((t.item (.tag (findBucketIdx hash s k))).readv =
          some (s.bucketAt (findBucketIdx hash s k)).version.unlocked →
        ((insert_row rmw op hash s t k vptr ow).2.2.item (.tag (findBucketIdx hash s k))).readv =
          some (bumpedV (s.bucketAt (findBucketIdx hash s k)).version))
    ∧ (insert_row rmw op hash s t k vptr ow).2.2.item (.elem s.recs.length) =
        ⟨none, some (.ptr (vptr.map .val)), true, false⟩ := by
  have hbi : findBucketIdx hash s k < s.buckets.length := findBucketIdx_lt hash s k hlen
  rw [insert_row_absent_eq rmw op ow hash s t k vptr hlen hfind]
  have hB : (IState.bucketAt
      ⟨s.buckets.set (findBucketIdx hash s k)
         ⟨s.recs.length :: (s.bucketAt (findBucketIdx hash s k)).chain,
          bumpedV (s.bucketAt (findBucketIdx hash s k)).version⟩,
       s.recs ++ [⟨k, initElemVersion false, s.valAt vptr, false⟩],
       s.vals⟩ (findBucketIdx hash s k)) =
      ⟨s.recs.length :: (s.bucketAt (findBucketIdx hash s k)).chain,
       bumpedV (s.bucketAt (findBucketIdx hash s k)).version⟩ := by
    show (s.buckets.set _ _).getD _ default = _
    exact getD_set_self _ _ _ _ hbi
  refine ⟨rfl, rfl, by rw [hB], by rw [hB], ?_, ?_⟩
  · intro hcond
    simp only [item_set_elem_tag,
      apply_ite (fun tt : Txn => tt.item (ItemKey.tag (findBucketIdx hash s k))),
      item_set_self, lookupItem_ensure, if_pos hcond]
  · rw [item_set_self, hfresh]
    rfl

/-- Witness for C3 at a concrete input: inserting key 1 (row value 7)
into the empty one-bucket table within a fresh transaction. -/
theorem C3_insert_absent_spec_witness :
    (0 < c3S.buckets.length
      ∧ findInChain c3S.recs 1 (c3S.bucketAt (findBucketIdx (fun k => k) c3S 1)).chain = none
      ∧ (⟨[]⟩ : Txn).item (.elem c3S.recs.length) = freshItem)
    ∧ (insert_row true true (fun k => k) c3S ⟨[]⟩ 1 (some 0) false).1 = (true, false)
    ∧ (insert_row true true (fun k => k) c3S ⟨[]⟩ 1 (some 0) false).2.2.item
        (.elem c3S.recs.length) = ⟨none, some (.ptr (some (.val 0))), true, false⟩ := by
  refine ⟨⟨by decide, by decide, by decide⟩, ?_, ?_⟩
  · exact (C3_insert_absent_spec true true false (fun k => k) c3S ⟨[]⟩ 1 (some 0)
      (by decide) (by decide) (by decide)).1
  · exact (C3_insert_absent_spec true true false (fun k => k) c3S ⟨[]⟩ 1 (some 0)
      (by decide) (by decide) (by decide)).2.2.2.2.2

theorem ensure_eq_self_of_lookup (t : Txn) (ik : ItemKey) (itm : TransItem)
    (h : t.lookupItem ik = some itm) : t.ensure ik = t := by
  unfold Txn.ensure
  rw [h]

theorem item_of_lookup (t : Txn) (ik : ItemKey) (itm : TransItem)
    (h : t.lookupItem ik = some itm) : t.item ik = itm := by
  unfold Txn.item
  rw [h]
  rfl

/-- What delete_row does, in read-my-writes mode, to a record this
transaction inserted (INVALID record, INSERT-flagged item): the record is
physically unlinked from the bucket chain immediately, the item is
stripped of its read, write and flags, the bucket version is observed,
and (ok = true, found = true) is returned. -/
theorem delete_row_undo_eq [DecidableEq K] [Inhabited K] [Inhabited V]
    (op : Bool) (hash : K → Nat) (S : IState K V) (T : Txn) (k : K)
    (n : Nat) (chain0 : List Nat) (ver : Version) (itm : TransItem)
    (hbuck : S.bucketAt (findBucketIdx hash S k) = ⟨n :: chain0, ver⟩)
    (hrec : (S.recAt n).key = k) (hinv : (S.recAt n).version.invalid = true)
    (hlk : T.lookupItem (.elem n) = some itm) (hins : itm.insertFlag = true) :
    delete_row true op hash S T k =
      ((true, true), S.setBucket (findBucketIdx hash S k) ⟨chain0, ver⟩,
       ((T.set (.elem n) freshItem).ensure (.tag (findBucketIdx hash S k))).set
         (.tag (findBucketIdx hash S k))
         (observe op (((T.set (.elem n) freshItem).ensure
             (.tag (findBucketIdx hash S k))).item (.tag (findBucketIdx hash S k))) ver).2) := by
  have hfindS : S.findInBucket (S.bucketAt (findBucketIdx hash S k)) k = some n := by
    rw [hbuck]
    show findInChain S.recs k (n :: chain0) = some n
    simp only [findInChain]
    rw [if_pos (show (S.recs.getD n default).key = k from hrec)]
  simp only [delete_row]
  rw [hfindS, hbuck]
  show deleteRowFound true op hash S T (findBucketIdx hash S k) ver n = _
  simp only [deleteRowFound]
  rw [ensure_eq_self_of_lookup T (.elem n) itm hlk, item_of_lookup T (.elem n) itm hlk]
  have hvalid : (S.recAt n).valid = false := by
    simp [Record.valid, hinv]
  rw [if_neg (by simp [isPhantom, hvalid, hins])]
  rw [if_pos (by simp [hvalid, hins])]
  simp only [IState.removeElem]
  rw [hrec, hbuck]
  rw [List.erase_cons_head]

/-- A select_row on a key absent from its (unlocked) bucket returns
(ok = true, found = false). -/
theorem select_row_miss [DecidableEq K] [Inhabited K] [Inhabited V]
    (rmw op : Bool) (hash : K → Nat) (S : IState K V) (T : Txn) (k : K) (fu : Bool)
    (hfindS : findInChain S.recs k ((S.bucketAt (findBucketIdx hash S k)).chain) = none)
    (hunlocked : (S.bucketAt (findBucketIdx hash S k)).version.locked = false) :
    (select_row rmw op hash S T k fu).1 = (true, false, none, none) := by
  simp only [select_row]
  rw [show S.findInBucket (S.bucketAt (findBucketIdx hash S k)) k = none from hfindS]
  simp only [observe, hunlocked, Bool.and_false]
  rfl

/-- Claim C2: in read-my-writes mode, inserting a key absent from its
bucket and then deleting it within the same transaction makes the
delete succeed with found = true, restores the bucket chain (the
speculative INVALID record is physically unlinked at once, so it is
already absent at commit, where the cleared item makes commit-time
cleanup a no-op), and a subsequent same-transaction select_row of the
key reports ok = true, found = false. -/
theorem C2_rmw_insert_delete_select [DecidableEq K] [Inhabited K] [Inhabited V]
    (op : Bool) (hash : K → Nat) (s : IState K V) (t : Txn) (k : K) (vptr : Option Nat)
    (hlen : 0 < s.buckets.length)
    (hfind : findInChain s.recs k (s.bucketAt (findBucketIdx hash s k)).chain = none)
    (hwf : ∀ i ∈ (s.bucketAt (findBucketIdx hash s k)).chain, i < s.recs.length) :
    (delete_row true op hash (insert_row true op hash s t k vptr false).2.1
        (insert_row true op hash s t k vptr false).2.2 k).1 = (true, true)
    ∧ ((delete_row true op hash (insert_row true op hash s t k vptr false).2.1
          (insert_row true op hash s t k vptr false).2.2 k).2.1.bucketAt
        (findBucketIdx hash s k)).chain = (s.bucketAt (findBucketIdx hash s k)).chain
    ∧ s.recs.length ∉ ((delete_row true op hash (insert_row true op hash s t k vptr false).2.1
          (insert_row true op hash s t k vptr false).2.2 k).2.1.bucketAt
        (findBucketIdx hash s k)).chain
    ∧ (select_row true op hash
        (delete_row true op hash (insert_row true op hash s t k vptr false).2.1
          (insert_row true op hash s t k vptr false).2.2 k).2.1
        (delete_row true op hash (insert_row true op hash s t k vptr false).2.1
          (insert_row true op hash s t k vptr false).2.2 k).2.2 k false).1 =
      (true, false, none, none) := by
  have hbi : findBucketIdx hash s k < s.buckets.length := findBucketIdx_lt hash s k hlen
  rw [insert_row_absent_eq true op false hash s t k vptr hlen hfind]
  rw [delete_row_undo_eq op hash _ _ k s.recs.length
      (s.bucketAt (findBucketIdx hash s k)).chain
      (bumpedV (s.bucketAt (findBucketIdx hash s k)).version)
      { t.item (.elem s.recs.length) with
          writev := some (.ptr (vptr.map .val)), insertFlag := true }
      (by
        simp only [findBucketIdx, List.length_set]
        show (s.buckets.set _ _).getD _ default = _
        exact getD_set_self _ _ _ _ hbi)
      (by
        show ((s.recs ++ [_]).getD s.recs.length default).key = k
        rw [getD_append_self])
      (by
        show ((s.recs ++ [_]).getD s.recs.length default).version.invalid = true
        rw [getD_append_self]
        rfl)
      (lookupItem_set_self _ _ _)
      rfl]
  have hbi' : hash k % s.buckets.length < s.buckets.length := hbi
  refine ⟨rfl, ?_, ?_, ?_⟩
  · simp only [findBucketIdx, List.length_set, IState.setBucket, IState.bucketAt, List.set_set]
    rw [getD_set_self _ _ _ _ hbi']
  · simp only [findBucketIdx, List.length_set, IState.setBucket, IState.bucketAt, List.set_set]
    rw [getD_set_self _ _ _ _ hbi']
    intro hmem
    exact Nat.lt_irrefl _ (hwf _ hmem)
  · apply select_row_miss
    · simp only [findBucketIdx, List.length_set, IState.setBucket, IState.bucketAt,
        recs_setBucket, List.set_set]
      rw [getD_set_self _ _ _ _ hbi']
      show findInChain (s.recs ++ [⟨k, initElemVersion false, s.valAt vptr, false⟩]) k
        (s.buckets.getD (hash k % s.buckets.length) default).chain = none
      have hwf' : ∀ i ∈ (s.buckets.getD (hash k % s.buckets.length) default).chain,
          i < s.recs.length := hwf
      rw [findInChain_append _ _ _ _ hwf']
      exact hfind
    · simp only [findBucketIdx, List.length_set, IState.setBucket, IState.bucketAt,
        List.set_set]
      rw [getD_set_self _ _ _ _ hbi']
      rfl

/-- Witness for C2 at a concrete input: insert key 1 (row value 7) into
the empty one-bucket table, delete it, then select it, all in one
transaction. -/
theorem C2_rmw_insert_delete_select_witness :
    (0 < (⟨[⟨[], ⟨0, false, false, false⟩⟩], [], [7]⟩ : IState Nat Nat).buckets.length
      ∧ findInChain (⟨[⟨[], ⟨0, false, false, false⟩⟩], [], [7]⟩ : IState Nat Nat).recs 1
          ((⟨[⟨[], ⟨0, false, false, false⟩⟩], [], [7]⟩ : IState Nat Nat).bucketAt
            (findBucketIdx (fun k => k) ⟨[⟨[], ⟨0, false, false, false⟩⟩], [], [7]⟩ 1)).chain = none
      ∧ ∀ i ∈ ((⟨[⟨[], ⟨0, false, false, false⟩⟩], [], [7]⟩ : IState Nat Nat).bucketAt
            (findBucketIdx (fun k => k) ⟨[⟨[], ⟨0, false, false, false⟩⟩], [], [7]⟩ 1)).chain,
          i < (⟨[⟨[], ⟨0, false, false, false⟩⟩], [], [7]⟩ : IState Nat Nat).recs.length)
    ∧ (delete_row true true (fun k => k)
        (insert_row true true (fun k => k) ⟨[⟨[], ⟨0, false, false, false⟩⟩], [], [7]⟩ ⟨[]⟩ 1 (some 0) false).2.1
        (insert_row true true (fun k => k) ⟨[⟨[], ⟨0, false, false, false⟩⟩], [], [7]⟩ ⟨[]⟩ 1 (some 0) false).2.2
        1).1 = (true, true)
    ∧ (select_row true true (fun k => k)
        (delete_row true true (fun k => k)
          (insert_row true true (fun k => k) ⟨[⟨[], ⟨0, false, false, false⟩⟩], [], [7]⟩ ⟨[]⟩ 1 (some 0) false).2.1
          (insert_row true true (fun k => k) ⟨[⟨[], ⟨0, false, false, false⟩⟩], [], [7]⟩ ⟨[]⟩ 1 (some 0) false).2.2
          1).2.1
        (delete_row true true (fun k => k)
          (insert_row true true (fun k => k) ⟨[⟨[], ⟨0, false, false, false⟩⟩], [], [7]⟩ ⟨[]⟩ 1 (some 0) false).2.1
          (insert_row true true (fun k => k) ⟨[⟨[], ⟨0, false, false, false⟩⟩], [], [7]⟩ ⟨[]⟩ 1 (some 0) false).2.2
          1).2.2 1 false).1 = (true, false, none, none) := by
  refine ⟨⟨by decide, by decide, by decide⟩, ?_, ?_⟩
  · exact (C2_rmw_insert_delete_select true (fun k => k) _ ⟨[]⟩ 1 (some 0)
      (by decide) (by decide) (by decide)).1
  · exact (C2_rmw_insert_delete_select true (fun k => k) _ ⟨[]⟩ 1 (some 0)
      (by decide) (by decide) (by decide)).2.2.2

/-- Locking then unlocking an unlocked bucket restores the state. -/
theorem unlock_lock_id [DecidableEq K] [Inhabited K] [Inhabited V]
    (s : IState K V) (bi : Nat) (hbi : bi < s.buckets.length)
    (hblock : (s.bucketAt bi).version.locked = false) :
    (s.lockBucket bi).unlockBucket bi = s := by
  have hlockB : (s.lockBucket bi).bucketAt bi =
      ⟨(s.bucketAt bi).chain, (s.bucketAt bi).version.lock⟩ := by
    unfold IState.lockBucket
    rw [bucketAt_setBucket_self _ _ _ hbi]
  unfold IState.unlockBucket
  rw [hlockB]
  show (s.lockBucket bi).setBucket bi
      ⟨(s.bucketAt bi).chain, ⟨(s.bucketAt bi).version.counter, false,
        (s.bucketAt bi).version.nonopaque, (s.bucketAt bi).version.invalid⟩⟩ = s
  rw [version_eta _ hblock]
  unfold IState.lockBucket
  rw [setBucket_setBucket]
  show s.setBucket bi ⟨(s.bucketAt bi).chain, (s.bucketAt bi).version⟩ = s
  exact setBucket_bucketAt_self s bi hbi

/-- Claim C4: a record whose version carries the INVALID bit, not
inserted by this transaction (its item has no INSERT flag), is a phantom:
select_row, insert_row and delete_row on its key all abort, returning
ok = false, in every mode. -/
theorem C4_phantom_aborts [DecidableEq K] [Inhabited K] [Inhabited V]
    (rmw op fu ow : Bool) (hash : K → Nat) (s : IState K V) (t : Txn) (k : K)
    (vptr : Option Nat) (ei : Nat)
    (hlen : 0 < s.buckets.length)
    (hfind : findInChain s.recs k (s.bucketAt (findBucketIdx hash s k)).chain = some ei)
    (hinv : (s.recAt ei).version.invalid = true)
    (hflag : (t.item (.elem ei)).insertFlag = false) :
    (select_row rmw op hash s t k fu).1 = (false, false, none, none)
    ∧ (insert_row rmw op hash s t k vptr ow).1 = (false, false)
    ∧ (delete_row rmw op hash s t k).1 = (false, false) := by
  have hbi : findBucketIdx hash s k < s.buckets.length := findBucketIdx_lt hash s k hlen
  have hphantom : isPhantom (s.recAt ei) (t.item (.elem ei)) = true := by
    simp [isPhantom, Record.valid, hinv, hflag]
  refine ⟨?_, ?_, ?_⟩
  · simp only [select_row]
    rw [show s.findInBucket (s.bucketAt (findBucketIdx hash s k)) k = some ei from hfind]
    simp only [selectRowFound, lookupItem_ensure]
    rw [if_pos hphantom]
  · simp only [insert_row]
    have hscrut : (s.lockBucket (findBucketIdx hash s k)).findInBucket
        ((s.lockBucket (findBucketIdx hash s k)).bucketAt (findBucketIdx hash s k)) k =
        some ei := by
      show findInChain s.recs k
          ((s.lockBucket (findBucketIdx hash s k)).bucketAt (findBucketIdx hash s k)).chain =
        some ei
      unfold IState.lockBucket
      rw [bucketAt_setBucket_self _ _ _ hbi]
      exact hfind
    rw [hscrut]
    show (insertRowFound rmw op ((s.lockBucket (findBucketIdx hash s k)).unlockBucket
        (findBucketIdx hash s k)) t ei vptr ow).1 = (false, false)
    simp only [insertRowFound, lookupItem_ensure]
    have hrec2 : (((s.lockBucket (findBucketIdx hash s k)).unlockBucket
        (findBucketIdx hash s k)).recAt ei) = s.recAt ei := rfl
    rw [hrec2, if_pos hphantom]
  · simp only [delete_row]
    rw [show s.findInBucket (s.bucketAt (findBucketIdx hash s k)) k = some ei from hfind]
    simp only [deleteRowFound, lookupItem_ensure]
    rw [if_pos hphantom]

/-- Witness for C4 at a concrete input: a one-bucket table holding an
INVALID (uncommitted) record for key 1, probed by a fresh transaction. -/
theorem C4_phantom_aborts_witness :
    (0 < (⟨[⟨[0], ⟨3, false, false, false⟩⟩], [⟨1, ⟨5, false, false, true⟩, 7, false⟩], []⟩ :
        IState Nat Nat).buckets.length
      ∧ findInChain (⟨[⟨[0], ⟨3, false, false, false⟩⟩], [⟨1, ⟨5, false, false, true⟩, 7, false⟩], []⟩ :
            IState Nat Nat).recs 1
          ((⟨[⟨[0], ⟨3, false, false, false⟩⟩], [⟨1, ⟨5, false, false, true⟩, 7, false⟩], []⟩ :
            IState Nat Nat).bucketAt
            (findBucketIdx (fun k => k)
              ⟨[⟨[0], ⟨3, false, false, false⟩⟩], [⟨1, ⟨5, false, false, true⟩, 7, false⟩], []⟩ 1)).chain =
          some 0)
    ∧ (select_row true true (fun k => k)
        ⟨[⟨[0], ⟨3, false, false, false⟩⟩], [⟨1, ⟨5, false, false, true⟩, 7, false⟩], []⟩ ⟨[]⟩ 1 false).1 =
        (false, false, none, none)
    ∧ (insert_row true true (fun k => k)
        ⟨[⟨[0], ⟨3, false, false, false⟩⟩], [⟨1, ⟨5, false, false, true⟩, 7, false⟩], []⟩ ⟨[]⟩ 1 none false).1 =
        (false, false)
    ∧ (delete_row true true (fun k => k)
        ⟨[⟨[0], ⟨3, false, false, false⟩⟩], [⟨1, ⟨5, false, false, true⟩, 7, false⟩], []⟩ ⟨[]⟩ 1).1 =
        (false, false) := by
  refine ⟨⟨by decide, by decide⟩, ?_, ?_, ?_⟩
  · exact (C4_phantom_aborts true true false false (fun k => k) _ ⟨[]⟩ 1 none 0
      (by decide) (by decide) (by decide) (by decide)).1
  · exact (C4_phantom_aborts true true false false (fun k => k) _ ⟨[]⟩ 1 none 0
      (by decide) (by decide) (by decide) (by decide)).2.1
  · exact (C4_phantom_aborts true true false false (fun k => k) _ ⟨[]⟩ 1 none 0
      (by decide) (by decide) (by decide) (by decide)).2.2

/-- Claim C5, amended: for a key present as a valid non-phantom record on
which this transaction holds no pending DELETE, delete_row acquires the
record for update — registering a version observation and a write-set
entry — then re-checks the record's deleted flag: if set, it aborts with
(false, false); otherwise it adds the DELETE flag and returns
(true, true).  (If the item already carries DELETE, read-my-writes mode
instead returns (true, false): see the counterexample.) -/
theorem C5_delete_present_valid [DecidableEq K] [Inhabited K] [Inhabited V]
    (rmw op : Bool) (hash : K → Nat) (s : IState K V) (t : Txn) (k : K) (ei : Nat)
    (hfind : findInChain s.recs k (s.bucketAt (findBucketIdx hash s k)).chain = some ei)
    (hvalid : (s.recAt ei).version.invalid = false)
    (hnodel : (t.item (.elem ei)).deleteFlag = false)
    (hrlock : (s.recAt ei).version.locked = false) :
    ((s.recAt ei).deleted = true → (delete_row rmw op hash s t k).1 = (false, false))
    ∧ ((s.recAt ei).deleted = false →
        (delete_row rmw op hash s t k).1 = (true, true)
        ∧ ((delete_row rmw op hash s t k).2.2.item (.elem ei)).deleteFlag = true
        ∧ ((delete_row rmw op hash s t k).2.2.item (.elem ei)).readv.isSome = true
        ∧ ((delete_row rmw op hash s t k).2.2.item (.elem ei)).writev.isSome = true) := by
  have hred : delete_row rmw op hash s t k =
      (if (s.recAt ei).deleted then
        ((false, false), s, (t.ensure (.elem ei)).set (.elem ei)
          ((selectForUpdate op (t.item (.elem ei)) (s.recAt ei).version).2))
      else
        ((true, true), s, (t.ensure (.elem ei)).set (.elem ei)
          { (selectForUpdate op (t.item (.elem ei)) (s.recAt ei).version).2 with
              deleteFlag := true })) := by
    simp only [delete_row]
    rw [show s.findInBucket (s.bucketAt (findBucketIdx hash s k)) k = some ei from hfind]
    simp only [deleteRowFound, lookupItem_ensure]
    rw [if_neg (show ¬isPhantom (s.recAt ei) (t.item (.elem ei)) = true by
      simp [isPhantom, Record.valid, hvalid])]
    rw [if_neg (show ¬(rmw && (!(s.recAt ei).valid && (t.item (.elem ei)).insertFlag)) = true by
      simp [Record.valid, hvalid])]
    rw [if_neg (show ¬(rmw && (t.item (.elem ei)).deleteFlag) = true by simp [hnodel])]
    have hsfu : selectForUpdate op (t.item (.elem ei)) (s.recAt ei).version =
        (true, (selectForUpdate op (t.item (.elem ei)) (s.recAt ei).version).2) := by
      simp only [selectForUpdate, observe, hrlock, Bool.and_false]
      rfl
    rw [hsfu]
  have hreadv : ((selectForUpdate op (t.item (.elem ei)) (s.recAt ei).version).2).readv.isSome
      = true := by
    simp only [selectForUpdate, observe, hrlock, Bool.and_false]
    cases hcase : (t.item (.elem ei)).readv <;> simp [hcase]
  have hwritev : ((selectForUpdate op (t.item (.elem ei)) (s.recAt ei).version).2).writev.isSome
      = true := by
    simp only [selectForUpdate, observe, hrlock, Bool.and_false]
    rfl
  constructor
  · intro hdel
    rw [hred, if_pos hdel]
  · intro hdel
    rw [hred, if_neg (by simp [hdel])]
    refine ⟨rfl, ?_, ?_, ?_⟩
    · rw [item_set_self]
    · rw [item_set_self]
      exact hreadv
    · rw [item_set_self]
      exact hwritev

/-- Witness for C5's amended theorem at a concrete input: a valid
committed record for key 1 deleted by a fresh transaction. -/
theorem C5_delete_present_valid_witness :
    (findInChain (⟨[⟨[0], ⟨3, false, false, false⟩⟩], [⟨1, ⟨5, false, false, false⟩, 7, false⟩], []⟩ :
          IState Nat Nat).recs 1
        ((⟨[⟨[0], ⟨3, false, false, false⟩⟩], [⟨1, ⟨5, false, false, false⟩, 7, false⟩], []⟩ :
          IState Nat Nat).bucketAt
          (findBucketIdx (fun k => k)
            ⟨[⟨[0], ⟨3, false, false, false⟩⟩], [⟨1, ⟨5, false, false, false⟩, 7, false⟩], []⟩ 1)).chain =
        some 0)
    ∧ (delete_row true true (fun k => k)
        ⟨[⟨[0], ⟨3, false, false, false⟩⟩], [⟨1, ⟨5, false, false, false⟩, 7, false⟩], []⟩ ⟨[]⟩ 1).1 =
        (true, true)
    ∧ ((delete_row true true (fun k => k)
        ⟨[⟨[0], ⟨3, false, false, false⟩⟩], [⟨1, ⟨5, false, false, false⟩, 7, false⟩], []⟩ ⟨[]⟩ 1).2.2.item
          (.elem 0)).deleteFlag = true := by
  refine ⟨by decide, ?_, ?_⟩
  · exact ((C5_delete_present_valid true true (fun k => k) _ ⟨[]⟩ 1 0
      (by decide) (by decide) (by decide) (by decide)).2 (by decide)).1
  · exact ((C5_delete_present_valid true true (fun k => k) _ ⟨[]⟩ 1 0
      (by decide) (by decide) (by decide) (by decide)).2 (by decide)).2.1

/-- Claim C10: with read-my-writes off, insert_row(k, vptr, overwrite =
false) on a key present as a valid committed record stages no write and
modifies no container state: it returns (ok = true, found = true) once
the version observation succeeds, leaves the container state — chains,
values and versions — exactly as it was (the bucket lock is taken and
released around the chain walk), and only registers a read observation of
the record's version on the transaction's item, every other item staying
untouched. -/
theorem C10_insert_present_frame [DecidableEq K] [Inhabited K] [Inhabited V]
    (op : Bool) (hash : K → Nat) (s : IState K V) (t : Txn) (k : K) (vptr : Option Nat)
    (ei : Nat)
    (hlen : 0 < s.buckets.length)
    (hfind : findInChain s.recs k (s.bucketAt (findBucketIdx hash s k)).chain = some ei)
    (hvalid : (s.recAt ei).version.invalid = false)
    (hblock : (s.bucketAt (findBucketIdx hash s k)).version.locked = false)
    (hrlock : (s.recAt ei).version.locked = false) :
    (insert_row false op hash s t k vptr false).1 = (true, true)
    ∧ (insert_row false op hash s t k vptr false).2.1 = s
    ∧ (insert_row false op hash s t k vptr false).2.2.item (.elem ei) =
        (if (t.item (.elem ei)).readv.isNone
         then { t.item (.elem ei) with readv := some (s.recAt ei).version }
         else t.item (.elem ei))
    ∧ ∀ ik, ik ≠ ItemKey.elem ei →
        (insert_row false op hash s t k vptr false).2.2.item ik = t.item ik := by
  have hbi : findBucketIdx hash s k < s.buckets.length := findBucketIdx_lt hash s k hlen
  have hred : insert_row false op hash s t k vptr false =
      ((true, true), s, (t.ensure (.elem ei)).set (.elem ei)
        (if (t.item (.elem ei)).readv.isNone
         then { t.item (.elem ei) with readv := some (s.recAt ei).version }
         else t.item (.elem ei))) := by
    simp only [insert_row]
    have hscrut : (s.lockBucket (findBucketIdx hash s k)).findInBucket
        ((s.lockBucket (findBucketIdx hash s k)).bucketAt (findBucketIdx hash s k)) k =
        some ei := by
      show findInChain s.recs k
          ((s.lockBucket (findBucketIdx hash s k)).bucketAt (findBucketIdx hash s k)).chain =
        some ei
      unfold IState.lockBucket
      rw [bucketAt_setBucket_self _ _ _ hbi]
      exact hfind
    rw [hscrut]
    show insertRowFound false op ((s.lockBucket (findBucketIdx hash s k)).unlockBucket
        (findBucketIdx hash s k)) t ei vptr false = _
    rw [unlock_lock_id s (findBucketIdx hash s k) hbi hblock]
    simp only [insertRowFound, lookupItem_ensure]
    rw [if_neg (show ¬isPhantom (s.recAt ei) (t.item (.elem ei)) = true by
      simp [isPhantom, Record.valid, hvalid])]
    rw [if_neg (show ¬(false && (t.item (.elem ei)).deleteFlag) = true by simp)]
    rw [if_neg (show ¬false = true by simp)]
    simp only [observe, hrlock, Bool.and_false]
    rfl
  rw [hred]
  refine ⟨rfl, rfl, ?_, ?_⟩
  · rw [item_set_self]
  · intro ik hik
    rw [item_set_ne _ _ _ _ hik, lookupItem_ensure]

/-- Witness for C10 at a concrete input: re-inserting the key of a valid
committed record with overwrite off, in a fresh transaction. -/
theorem C10_insert_present_frame_witness :
    ((0 : Nat) < (⟨[⟨[0], ⟨3, false, false, false⟩⟩], [⟨1, ⟨5, false, false, false⟩, 7, false⟩], [9]⟩ :
          IState Nat Nat).buckets.length
      ∧ findInChain (⟨[⟨[0], ⟨3, false, false, false⟩⟩], [⟨1, ⟨5, false, false, false⟩, 7, false⟩], [9]⟩ :
            IState Nat Nat).recs 1
          ((⟨[⟨[0], ⟨3, false, false, false⟩⟩], [⟨1, ⟨5, false, false, false⟩, 7, false⟩], [9]⟩ :
            IState Nat Nat).bucketAt
            (findBucketIdx (fun k => k)
              ⟨[⟨[0], ⟨3, false, false, false⟩⟩], [⟨1, ⟨5, false, false, false⟩, 7, false⟩], [9]⟩ 1)).chain =
          some 0)
    ∧ (insert_row false true (fun k => k)
        ⟨[⟨[0], ⟨3, false, false, false⟩⟩], [⟨1, ⟨5, false, false, false⟩, 7, false⟩], [9]⟩
        ⟨[]⟩ 1 (some 0) false).1 = (true, true)
    ∧ (insert_row false true (fun k => k)
        ⟨[⟨[0], ⟨3, false, false, false⟩⟩], [⟨1, ⟨5, false, false, false⟩, 7, false⟩], [9]⟩
        ⟨[]⟩ 1 (some 0) false).2.1 =
        ⟨[⟨[0], ⟨3, false, false, false⟩⟩], [⟨1, ⟨5, false, false, false⟩, 7, false⟩], [9]⟩ := by
  refine ⟨⟨by decide, by decide⟩, ?_, ?_⟩
  · exact (C10_insert_present_frame true (fun k => k) _ ⟨[]⟩ 1 (some 0) 0
      (by decide) (by decide) (by decide) (by decide) (by decide)).1
  · exact (C10_insert_present_frame true (fun k => k) _ ⟨[]⟩ 1 (some 0) 0
      (by decide) (by decide) (by decide) (by decide) (by decide)).2.1

/-- The trace and success flag of the visit_value loop: with the boundary
comparison armed it delivers the values of the longest prefix of keys
below the boundary; unarmed, it delivers them all.  Valid unlocked
records and an always-continuing callback keep scan_succeeded_ true. -/
theorem scanValues_spec {V : Type} (op : Bool) (cb : Nat → V → Bool) (endk : Nat) (bc : Bool)
    (pairs : List (Nat × OElem V)) (t : Txn)
    (hval : ∀ p ∈ pairs, p.2.version.invalid = false ∧ p.2.version.locked = false)
    (hcb : ∀ a v, cb a v = true) :
    (scanValues op cb endk bc pairs t).2.1 =
      (if bc then pairs.takeWhile (fun p => decide (p.1 < endk)) else pairs).map
        (fun p => (p.1, p.2.value))
    ∧ (scanValues op cb endk bc pairs t).2.2 = true := by
  induction pairs generalizing t with
  | nil =>
    cases bc <;> simp [scanValues]
  | cons pe rest ih =>
    obtain ⟨key, e⟩ := pe
    have he := hval (key, e) (List.mem_cons_self _ _)
    have he1 : e.version.invalid = false := he.1
    have he2 : e.version.locked = false := he.2
    have hrest : ∀ p ∈ rest, p.2.version.invalid = false ∧ p.2.version.locked = false :=
      fun p hp => hval p (List.mem_cons_of_mem _ hp)
    have hobs : ∀ it : TransItem, observe op it e.version =
        (true, if it.readv.isNone then { it with readv := some e.version } else it) := by
      intro it
      unfold observe
      rw [he2, Bool.and_false]
      rfl
    simp only [scanValues]
    cases bc with
    | false =>
      rw [if_neg (by simp), hobs]
      simp only []
      rw [if_neg (show ¬e.version.invalid = true by simp [he1])]
      rw [if_pos (hcb key e.value)]
      refine ⟨?_, ?_⟩
      · show (key, e.value) :: (scanValues op cb endk false rest _).2.1 = _
        rw [(ih _ hrest).1]
        simp
      · show (scanValues op cb endk false rest _).2.2 = true
        exact (ih _ hrest).2
    | true =>
      by_cases hb : endk ≤ key
      · rw [if_pos (by simp [hb])]
        refine ⟨?_, rfl⟩
        show ([] : List (Nat × V)) = _
        rw [if_pos rfl, List.takeWhile_cons_of_neg (by simp [Nat.not_lt.mpr hb])]
        rfl
      · rw [if_neg (by simp [hb]), hobs]
        simp only []
        rw [if_neg (show ¬e.version.invalid = true by simp [he1])]
        rw [if_pos (hcb key e.value)]
        refine ⟨?_, ?_⟩
        · show (key, e.value) :: (scanValues op cb endk true rest _).2.1 = _
          rw [(ih _ hrest).1]
          have hklt : key < endk := Nat.lt_of_not_le hb
          simp [hklt]
        · show (scanValues op cb endk true rest _).2.2 = true
          exact (ih _ hrest).2

theorem takeWhile_eq_filter_of_sorted {V : Type} (endk : Nat) (pairs : List (Nat × OElem V))
    (hs : List.Pairwise (fun a b => a.1 < b.1) pairs) :
    pairs.takeWhile (fun p => decide (p.1 < endk)) =
      pairs.filter (fun p => decide (p.1 < endk)) := by
  induction pairs with
  | nil => rfl
  | cons a rest ih =>
    have hhd := List.pairwise_cons.mp hs
    by_cases h : a.1 < endk
    · rw [List.takeWhile_cons_of_pos (by simp [h]), List.filter_cons_of_pos (by simp [h]),
        ih hhd.2]
    · rw [List.takeWhile_cons_of_neg (by simp [h]), List.filter_cons_of_neg (by simp [h])]
      rw [eq_comm, List.filter_eq_nil_iff]
      intro p hp
      have hlt : a.1 < p.1 := hhd.1 p hp
      simp
      omega

theorem mem_le_last_key {V : Type} (pairs : List (Nat × OElem V))
    (hs : List.Pairwise (fun a b => a.1 < b.1) pairs) :
    ∀ p ∈ pairs, p.1 ≤ ((pairs.map (fun q => q.1)).getLast?.getD 0) := by
  induction pairs with
  | nil => intro p hp; cases hp
  | cons a rest ih =>
    intro p hp
    have hhd := List.pairwise_cons.mp hs
    cases rest with
    | nil =>
      have hpa : p = a := by simpa using hp
      subst hpa
      simp
    | cons b rest2 =>
      have hlast : (((a :: b :: rest2).map (fun q => q.1)).getLast?).getD 0 =
          (((b :: rest2).map (fun q => q.1)).getLast?).getD 0 := by
        simp
      rw [hlast]
      rcases List.mem_cons.mp hp with hpa | hpm
      · subst hpa
        have hble := ih hhd.2 b (List.mem_cons_self _ _)
        have hpb : p.1 < b.1 := hhd.1 b (List.mem_cons_self _ _)
        omega
      · exact ih hhd.2 p hpm

/-- Claim C9: a forward range_scan(begin, end) over a one-leaf table of
valid committed records visits exactly the keys k with begin ≤ k < end,
in ascending order, delivering each key and value to the callback, and
the scan succeeds. -/
theorem C9_forward_range_scan_window {V : Type} (op : Bool) (leaf : OLeaf V) (t : Txn)
    (begink endk : Nat) (cb : Nat → V → Bool)
    (hs : List.Pairwise (fun a b => a.1 < b.1) leaf.pairs)
    (hval : ∀ p ∈ leaf.pairs, p.2.version.invalid = false ∧ p.2.version.locked = false)
    (hleaf : leaf.version.locked = false)
    (hcb : ∀ a v, cb a v = true) :
    (rangeScan op leaf t begink endk cb).2.1 =
      (leaf.pairs.filter (fun p => decide (begink ≤ p.1) && decide (p.1 < endk))).map
        (fun p => (p.1, p.2.value))
    ∧ (rangeScan op leaf t begink endk cb).2.2 = true := by
  simp only [rangeScan]
  have hobs : (observe op ((t.ensure (.tag 0)).item (.tag 0)) leaf.version).1 = true := by
    unfold observe
    rw [hleaf, Bool.and_false]
    rfl
  have hstartval : ∀ p ∈ leaf.pairs.filter (fun p => decide (begink ≤ p.1)),
      p.2.version.invalid = false ∧ p.2.version.locked = false :=
    fun p hp => hval p (List.mem_of_mem_filter hp)
  have hstartsorted : List.Pairwise (fun a b => a.1 < b.1)
      (leaf.pairs.filter (fun p => decide (begink ≤ p.1))) :=
    List.Pairwise.filter _ hs
  have hsc := scanValues_spec op cb endk (scannerCheck endk leaf)
    (leaf.pairs.filter (fun p => decide (begink ≤ p.1)))
    ((t.ensure (ItemKey.tag 0)).set (ItemKey.tag 0)
      (observe op ((t.ensure (ItemKey.tag 0)).item (ItemKey.tag 0)) leaf.version).2)
    hstartval hcb
  refine ⟨?_, ?_⟩
  · rw [hsc.1]
    by_cases hbc : scannerCheck endk leaf = true
    · rw [if_pos hbc, takeWhile_eq_filter_of_sorted endk _ hstartsorted, List.filter_filter]
      exact congrArg _ (List.filter_congr (fun p _ => by rw [Bool.and_comm]))
    · rw [if_neg hbc]
      have hbc' : ¬ endk ≤ ((leaf.pairs.map (fun q => q.1)).getLast?.getD 0) := by
        simpa [scannerCheck] using hbc
      refine congrArg _ ?_
      rw [eq_comm]
      apply List.filter_congr
      intro p hp
      have hle := mem_le_last_key leaf.pairs hs p hp
      have hlt : p.1 < endk := Nat.lt_of_le_of_lt hle (Nat.lt_of_not_le hbc')
      simp [hlt]
  · rw [hobs, hsc.2]
    rfl

/-- The concrete leaf of the C9 witness run: keys 10, 20, 30, 40 with
values 100, 200, 300, 400, all valid committed records. -/
def c9Leaf : OLeaf Nat :=
  ⟨⟨5, false, false, false⟩,
   [(10, ⟨⟨2, false, false, false⟩, 100, false⟩),
    (20, ⟨⟨2, false, false, false⟩, 200, false⟩),
    (30, ⟨⟨2, false, false, false⟩, 300, false⟩),
    (40, ⟨⟨2, false, false, false⟩, 400, false⟩)]⟩

/-- Witness for C9 at the concrete boundary scenario: over keys
{10, 20, 30, 40}, range_scan(15, 35) delivers 20 then 30 and succeeds. -/
theorem C9_forward_range_scan_window_witness :
    (List.Pairwise (fun a b => a.1 < b.1) c9Leaf.pairs
      ∧ (∀ p ∈ c9Leaf.pairs, p.2.version.invalid = false ∧ p.2.version.locked = false)
      ∧ c9Leaf.version.locked = false)
    ∧ (rangeScan true c9Leaf ⟨[]⟩ 15 35 (fun _ _ => true)).2.1 = [(20, 200), (30, 300)]
    ∧ (rangeScan true c9Leaf ⟨[]⟩ 15 35 (fun _ _ => true)).2.2 = true := by
  refine ⟨⟨by decide, by decide, by decide⟩, ?_, ?_⟩
  · exact ((C9_forward_range_scan_window true c9Leaf ⟨[]⟩ 15 35 (fun _ _ => true)
      (by decide) (by decide) (by decide) (fun a v => rfl)).1).trans (by decide)
  · exact (C9_forward_range_scan_window true c9Leaf ⟨[]⟩ 15 35 (fun _ _ => true)
      (by decide) (by decide) (by decide) (fun a v => rfl)).2

end Sto
